import Mathlib

/-!
Verification of the reel-generation timeline compiler and render-plan builder
(`reel_generator/video_builder.py`, `reel_generator/caption_generator.py`,
`reel_generator/main.py`, `src/services/faceless_video_service.py`).

Conventions of the shallow embedding:
* Python floats are modelled as exact rationals (`ℚ`); the `:.2f` formatting in
  the ffmpeg filter strings is treated as serialization of the plan's exact
  numeric parameters, so node parameters are stored unrounded.
* Python strings are modelled as `List Char`; `str.strip()`, `str.split()` and
  `re.split(r'([.!?])\s*', ·)` are modelled character by character below.
* Fallible code paths (Python `IndexError` on out-of-range list indexing) are
  modelled with `Option`; `none` means the Python code raises.
-/

namespace Reels

/-! ## Definitions (translated from the source) -/

/-- ASCII whitespace, the characters relevant to `str.strip` / `str.split` /
the regex class `\s` for the scripts this pipeline handles. -/
def isSpacePy (c : Char) : Bool :=
  c == ' ' || c == '\t' || c == '\n' || c == '\r' || c == '\x0b' || c == '\x0c'

/-- The terminal punctuation of the `re.split(r'([.!?])\s*', text)` pattern. -/
def isSentencePunct (c : Char) : Bool :=
  c == '.' || c == '!' || c == '?'

/-- Python `str.strip()` on a character list: drop leading and trailing
whitespace. -/
def pyStrip (s : List Char) : List Char :=
  (((s.dropWhile isSpacePy).reverse.dropWhile isSpacePy)).reverse

/-- Accumulator worker for Python's whitespace `str.split()`. `cur` holds the
current word reversed. -/
def pyWordsAux (cur : List Char) : List Char → List (List Char)
  | [] => if cur = [] then [] else [cur.reverse]
  | c :: rest =>
      if isSpacePy c then
        if cur = [] then pyWordsAux [] rest else cur.reverse :: pyWordsAux [] rest
      else
        pyWordsAux (c :: cur) rest

/-- Python `str.split()` (no separator): whitespace-separated words, empties
dropped. -/
def pyWords (s : List Char) : List (List Char) :=
  pyWordsAux [] s

/-- Worker for `re.split(r'([.!?])\s*', text)`.  The result alternates
text piece, captured punctuation, text piece, …  `skip` is true while the
greedy `\s*` after a punctuation match is still consuming whitespace. -/
def reSplitAux (skip : Bool) (cur : List Char) : List Char → List (List Char)
  | [] => [cur.reverse]
  | c :: rest =>
      if skip && isSpacePy c then reSplitAux skip cur rest
      else if isSentencePunct c then
        cur.reverse :: [c] :: reSplitAux true [] rest
      else
        reSplitAux false (c :: cur) rest

/-- The pairing loop of `split_into_chunks` (caption_generator.py lines
20-27): join each text piece with its following punctuation, keep the strip
if non-blank, and keep the stripped trailing piece if non-blank. -/
def processPairs : List (List Char) → List (List Char)
  | p :: s :: rest =>
      let chunk := pyStrip (p ++ s)
      if chunk = [] then processPairs rest else chunk :: processPairs rest
  | [p] => if pyStrip p = [] then [] else [pyStrip p]
  | [] => []

/-- `split_into_chunks` from `reel_generator/caption_generator.py`
(lines 16-29). -/
def split_into_chunks (text : List Char) : List (List Char) :=
  processPairs (reSplitAux false [] text)

/-- Worker for the specification-side splitter. -/
def splitSpecAux (cur : List Char) : List Char → List (List Char)
  | [] => if pyStrip cur.reverse = [] then [] else [pyStrip cur.reverse]
  | c :: rest =>
      if isSentencePunct c then
        let chunk := pyStrip (cur.reverse ++ [c])
        if chunk = [] then splitSpecAux [] rest else chunk :: splitSpecAux [] rest
      else
        splitSpecAux (c :: cur) rest

/-- Modelled from the spec (§4.2 step 1): split the script into sentence
chunks on terminal punctuation `.`, `!`, `?`, trimming whitespace from each
chunk, keeping a trailing unterminated fragment as its own chunk, and
yielding zero chunks for an empty or whitespace-only script. -/
def split_into_chunks_spec (text : List Char) : List (List Char) :=
  splitSpecAux [] text

/-- `TRANSITION_DURATION = 1.0` (video_builder.py line 146). -/
def TRANSITION_DURATION : ℚ := 1

/-- `INTRO_DURATION = 3.0` (video_builder.py line 147). -/
def INTRO_DURATION : ℚ := 3

/-- `outro_offset = INTRO_DURATION + voice_duration` (line 148), the hard
anchor at which the outro crossfade begins. -/
def outro_offset (voice_duration : ℚ) : ℚ :=
  INTRO_DURATION + voice_duration

/-- `per_image_duration` (lines 159-162): solved so that the cumulative
duration after the middle loop lands on `outro_offset + TRANSITION_DURATION`;
`5.0` in the degenerate content-less case. -/
def per_image_duration (voice_duration : ℚ) (num_middle : ℕ) : ℚ :=
  if 0 < num_middle then
    (voice_duration + TRANSITION_DURATION) / num_middle + TRANSITION_DURATION
  else 5

/-- The running `cumulative_duration` of the transition loop (lines 225-236):
starts at `INTRO_DURATION` and advances by
`per_image_duration - TRANSITION_DURATION` per middle image. -/
def cumulative_duration (voice_duration : ℚ) (num_middle : ℕ) : ℕ → ℚ
  | 0 => INTRO_DURATION
  | k + 1 => cumulative_duration voice_duration num_middle k +
      (per_image_duration voice_duration num_middle - TRANSITION_DURATION)

/-- `chunk_word_counts = [max(len(c.split()), 1) for c in chunks]`
(video_builder.py line 253). -/
def chunk_word_counts (chunks : List (List Char)) : List ℕ :=
  chunks.map fun c => max (pyWords c).length 1

/-- The sequential window placement loop (video_builder.py lines 256-261):
starting at `t`, each weight `w` receives the slice
`[t, t + (w / total) * window]` and `t` advances to the slice's end. -/
def chunkWindowsFrom (total window : ℚ) (t : ℚ) : List ℕ → List (ℚ × ℚ)
  | [] => []
  | w :: rest =>
      (t, t + (w / total) * window) ::
        chunkWindowsFrom total window (t + (w / total) * window) rest

/-- The caption chunk windows computed by `build_video` for a script and a
caption range `[rangeStart, rangeEnd]`. -/
def chunk_windows (script : List Char) (rangeStart rangeEnd : ℚ) : List (ℚ × ℚ) :=
  chunkWindowsFrom ((chunk_word_counts (split_into_chunks script)).sum : ℕ)
    (rangeEnd - rangeStart) rangeStart
    (chunk_word_counts (split_into_chunks script))

/-- `char_weights = [max(len(w), 2) for w in chunk_words]`
(video_builder.py line 291). -/
def char_weights (words : List (List Char)) : List ℕ :=
  words.map fun w => max w.length 2

/-- The boundary values of the per-word sub-windows
(video_builder.py lines 294-295):
`chunk_start + sum(char_weights[:i]) / total_chars * chunk_dur`. -/
def word_t (chunk_start chunk_dur : ℚ) (weights : List ℕ) (i : ℕ) : ℚ :=
  chunk_start + (((weights.take i).sum : ℕ) / ((weights.sum : ℕ) : ℚ)) * chunk_dur

/-- The i-th word's sub-window `[t0, t1]` inside a chunk's window. -/
def wordWindow (chunk_start chunk_dur : ℚ) (weights : List ℕ) (i : ℕ) : ℚ × ℚ :=
  (word_t chunk_start chunk_dur weights i, word_t chunk_start chunk_dur weights (i + 1))

inductive ReelError where
  | narrationTooShort
  | noMiddleImages
deriving DecidableEq, Repr

/-- The validation-and-timing prefix of `ReelGenerator.generate`
(main.py lines 48-56): the narration-length check (`voice_duration < 3.0`,
line 48) runs first, before any timing math; then the middle-image count
check (lines 52-54); then `per_image_duration = voice_duration / num_middle`
(line 56). -/
def generateChecks (voice_duration : ℚ) (num_middle : ℕ) : Except ReelError ℚ :=
  if voice_duration < 3 then .error .narrationTooShort
  else if num_middle = 0 then .error .noMiddleImages
  else .ok (voice_duration / num_middle)

inductive SlideshowBuild where
  | placeholderClip (dur : ℚ)
  | slideshow (perImage : ℚ) (count : ℕ)
  | noContentError
deriving DecidableEq, Repr

/-- Content handling of `_build_slideshow` (faceless_video_service.py lines
182-188): filter the image list to readable files
(`valid = [img for img in images if os.path.isfile(img)]`, modelled by the
`Bool` readability flag); if none remain, return a black placeholder clip of
the full duration; otherwise compute `per_image = total_duration / n` over
the `n` surviving images.  The `noContentError` constructor expresses the
outcome the specification expects in the empty case; the translated code
never produces it. -/
def buildSlideshow (images : List (String × Bool)) (total_duration : ℚ) :
    SlideshowBuild :=
  let valid := images.filter fun p => p.2
  if valid.length = 0 then .placeholderClip total_duration
  else .slideshow (total_duration / valid.length) valid.length

inductive Label where
  | v (i : ℕ)
  | vJoin (i : ℕ)
  | vCap (i : ℕ)
  | vBaseMiddle
  | vCaptioned
  | vTitled
  | ovScaled
  | vFramed
  | vFinal
  | aDelayed
deriving DecidableEq, Repr

/-- One node of the `filter_complex` graph.  Each constructor matches one
filter chain the source appends to `filter_parts`:
* `scaleStatic` — `scale=1080:1920:...,crop,fps,setsar` for intro/outro;
* `scaleZoom` — `scale=1280:2275,crop,zoompan(...)` for a middle image,
  recording zoom direction and the `d=int(per_image_duration*30)` frames;
* `xfade` — `xfade=transition=<style>:duration=<dur>:offset=<offset>`;
* `nullPass` — `null`;
* `overlayIdx` — `overlay=0:0:enable='between(t,t0,t1)'` with a numbered
  ffmpeg input as the overlaid image;
* `overlayLabel` — `overlay=0:0` of a labelled stream (the news frame);
* `scalePlain` — `scale=1080:1920` of the news-frame input;
* `audioTrimDelay` — `atrim=0:<end>,asetpts=PTS-STARTPTS,adelay=<l>|<r>`. -/
inductive FNode where
  | scaleStatic (inputIdx : ℕ) (outLabel : Label)
  | scaleZoom (inputIdx : ℕ) (zoomIn : Bool) (frames : ℤ) (outLabel : Label)
  | xfade (inA inB : Label) (style : String) (dur offset : ℚ) (outLabel : Label)
  | nullPass (inA : Label) (outLabel : Label)
  | overlayIdx (inA : Label) (overIdx : ℕ) (t0 t1 : ℚ) (outLabel : Label)
  | overlayLabel (inA inB : Label) (outLabel : Label)
  | scalePlain (inputIdx : ℕ) (outLabel : Label)
  | audioTrimDelay (inputIdx : ℕ) (trimStart trimEnd : ℚ) (delayL delayR : ℕ)
      (outLabel : Label)
deriving DecidableEq, Repr

/-- `TRANSITION_STYLES` of `reel_generator/video_builder.py` (line 16). -/
def TRANSITION_STYLES : List String := ["fadeblack"]

/-- The `config` dict handed to `build_video` by `ReelGenerator.generate`
(main.py 67-75): intro/outro/middle image paths, the number of rendered
caption PNGs, the script, the title text (empty string means no title), and
whether the news-frame overlay is active (`use_overlay` and
`assets/main_overlay.png` exists).  `generate` never passes a `segments`
key, so the combined-reel branch (video_builder.py 328-350) is not taken. -/
structure BuildConfig where
  intro_image : String
  outro_image : String
  middle_images : List String
  numCaptions : ℕ
  script : List Char
  title : List Char
  useOverlayFrame : Bool
deriving DecidableEq, Repr

/-- `inputs = [intro_img] + middle_imgs + [outro_img]` (line 165). -/
def inputPath (cfg : BuildConfig) (i : ℕ) : String :=
  (cfg.intro_image :: (cfg.middle_images ++ [cfg.outro_image])).getD i ""

/-- `len(inputs)`. -/
def numInputs (cfg : BuildConfig) : ℕ :=
  cfg.middle_images.length + 2

/-- The per-input scale chains (lines 188-221): inputs equal to the intro
or outro path get the static scale/crop chain; every other input gets the
zoompan chain, zooming in for even `img_index = i - 1` and out for odd,
with `d = int(per_image_duration * ZOOMPAN_FPS)` frames. -/
def inputScaleNodes (cfg : BuildConfig) (D : ℚ) : List FNode :=
  (List.range (numInputs cfg)).map fun i =>
    if inputPath cfg i = cfg.intro_image then
      .scaleStatic i (.v i)
    else if inputPath cfg i = cfg.outro_image then
      .scaleStatic i (.v i)
    else
      .scaleZoom i (decide ((i - 1) % 2 = 0))
        (Rat.floor (per_image_duration D cfg.middle_images.length * 30)) (.v i)

/-- The middle-image crossfade loop (lines 224-236): the k-th transition
(0-based) joins the running label to `v{k+1}` with style
`TRANSITION_STYLES[k % len]` at offset `cumulative_duration(k) -
TRANSITION_DURATION`. -/
def middleXfadeNodes (cfg : BuildConfig) (D : ℚ) : List FNode :=
  (List.range cfg.middle_images.length).map fun k =>
    .xfade (if k = 0 then .v 0 else .vJoin k) (.v (k + 1))
      (TRANSITION_STYLES.getD (k % TRANSITION_STYLES.length) "")
      TRANSITION_DURATION
      (cumulative_duration D cfg.middle_images.length k - TRANSITION_DURATION)
      (.vJoin (k + 1))

/-- The running label after the middle loop (`last_label`, line 224/235). -/
def lastMiddleLabel (cfg : BuildConfig) : Label :=
  if cfg.middle_images.length = 0 then .v 0 else .vJoin cfg.middle_images.length

/-- The typewriter frame-to-(chunk, word) search (lines 272-286): walk the
chunks' word counts counting frames; `none` when `i` is past the last word
(the Python loop then leaves the default `(0, 0)`). -/
def findChunkWord : List ℕ → ℕ → Option (ℕ × ℕ)
  | [], _ => none
  | n :: rest, i =>
      if i < n then some (0, i)
      else (findChunkWord rest (i - n)).map fun p => (p.1 + 1, p.2)

/-- One typewriter caption overlay (lines 268-301): look up the frame's
chunk and word, read the chunk's window (`chunk_windows[chunk_idx]` — an
out-of-range index raises, modelled by `none`) and sub-divide it by
character weight via `word_t`. -/
def typewriterNode (chunks : List (List Char)) (windows : List (ℚ × ℚ))
    (wordCounts : List ℕ) (capIdx0 : ℕ) (i : ℕ) : Option FNode :=
  let cw := (findChunkWord wordCounts i).getD (0, 0)
  match windows[cw.1]?, chunks[cw.1]? with
  | some w, some chunk =>
      let weights := char_weights (pyWords chunk)
      some (.overlayIdx (if i = 0 then .vBaseMiddle else .vCap (i - 1)) (capIdx0 + i)
        (word_t w.1 (w.2 - w.1) weights cw.2)
        (word_t w.1 (w.2 - w.1) weights (cw.2 + 1))
        (.vCap i))
  | _, _ => none

/-- One static-mode caption overlay (lines 303-315):
`chunk_i = min(i, len(chunk_windows) - 1)`; indexing an empty window list
raises (modelled by `none`). -/
def staticNode (windows : List (ℚ × ℚ)) (capIdx0 : ℕ) (i : ℕ) : Option FNode :=
  match windows[min i (windows.length - 1)]? with
  | some w =>
      some (.overlayIdx (if i = 0 then .vBaseMiddle else .vCap (i - 1)) (capIdx0 + i)
        w.1 w.2 (.vCap i))
  | none => none

/-- Chain `n` caption overlays in order; any raising step aborts the build. -/
def chainNodes (f : ℕ → Option FNode) : ℕ → Option (List FNode)
  | 0 => some []
  | k + 1 =>
      match chainNodes f k, f k with
      | some l, some n => some (l ++ [n])
      | _, _ => none

/-- The caption stage (lines 240-318): if caption images exist and the
caption range `[INTRO_DURATION, outro_offset]` is non-empty, compute the
chunk windows and chain one overlay per caption PNG (typewriter mode when
there are more PNGs than chunks), ending in `null` into `v_captioned`;
otherwise `v_captioned` is a plain `null` passthrough of `v_base_middle`. -/
def captionStage (cfg : BuildConfig) (D : ℚ) : Option (List FNode) :=
  if cfg.numCaptions ≠ 0 ∧ INTRO_DURATION < outro_offset D then
    let chunks := split_into_chunks cfg.script
    let wcs := chunk_word_counts chunks
    let windows := chunkWindowsFrom ((wcs.sum : ℕ)) (outro_offset D - INTRO_DURATION)
      INTRO_DURATION wcs
    let wordCounts := chunks.map fun c => (pyWords c).length
    let nodes :=
      if chunks.length < cfg.numCaptions then
        chainNodes (typewriterNode chunks windows wordCounts (numInputs cfg + 1))
          cfg.numCaptions
      else
        chainNodes (staticNode windows (numInputs cfg + 1)) cfg.numCaptions
    nodes.map fun l => l ++ [.nullPass (.vCap (cfg.numCaptions - 1)) .vCaptioned]
  else
    some [.nullPass .vBaseMiddle .vCaptioned]

/-- The single-reel title overlay (lines 351-359): one overlay enabled on
`[caption_start, outro_offset]`, skipped when the title text is empty. -/
def titleNodes (cfg : BuildConfig) (D : ℚ) : List FNode :=
  if cfg.title = [] then []
  else
    [.overlayIdx .vCaptioned (numInputs cfg + 1 + cfg.numCaptions)
      INTRO_DURATION (outro_offset D) .vTitled]

def titledLabel (cfg : BuildConfig) : Label :=
  if cfg.title = [] then .vCaptioned else .vTitled

/-- The news-frame overlay (lines 363-378). -/
def frameNodes (cfg : BuildConfig) : List FNode :=
  if cfg.useOverlayFrame then
    [.scalePlain (numInputs cfg + 1 + cfg.numCaptions +
        (if cfg.title = [] then 0 else 1)) .ovScaled,
     .overlayLabel (titledLabel cfg) .ovScaled .vFramed]
  else []

/-- `pre_outro_label` (lines 358-375). -/
def pre_outro_label (cfg : BuildConfig) : Label :=
  if cfg.useOverlayFrame then .vFramed else titledLabel cfg

/-- The outro crossfade (lines 380-386), placed at exactly `outro_offset`
with style `TRANSITION_STYLES[(outro_idx - 1) % len]`. -/
def outroXfadeNode (cfg : BuildConfig) (D : ℚ) : FNode :=
  .xfade (pre_outro_label cfg) (.v (numInputs cfg - 1))
    (TRANSITION_STYLES.getD ((numInputs cfg - 1 - 1) % TRANSITION_STYLES.length) "")
    TRANSITION_DURATION (outro_offset D) .vFinal

/-- The audio chain (lines 388-393): `atrim=0:voice_duration`, then
`adelay=3000|3000` on input `len(inputs)`. -/
def audioNode (cfg : BuildConfig) (D : ℚ) : FNode :=
  .audioTrimDelay (numInputs cfg) 0 D 3000 3000 .aDelayed

/-- The full `filter_complex` graph of `build_video` in insertion order
(lines 185-393); `none` when the caption stage raises. -/
def buildPlan (cfg : BuildConfig) (D : ℚ) : Option (List FNode) :=
  (captionStage cfg D).map fun capNodes =>
    inputScaleNodes cfg D ++ middleXfadeNodes cfg D ++
      [.nullPass (lastMiddleLabel cfg) .vBaseMiddle] ++ capNodes ++
      titleNodes cfg D ++ frameNodes cfg ++
      [outroXfadeNode cfg D, audioNode cfg D]

/-- Recognizes the audio trim+delay node kind. -/
def isAudioNode : FNode → Bool
  | .audioTrimDelay _ _ _ _ _ _ => true
  | _ => false

/-- A sample single-reel configuration: one middle image, no captions, no
title, no news frame. -/
def sampleCfg : BuildConfig :=
  { intro_image := "intro.png", outro_image := "outro.png",
    middle_images := ["m.png"], numCaptions := 0, script := [],
    title := [], useOverlayFrame := false }

/-- A configuration whose script yields zero caption windows (empty script)
while one caption image is supplied. -/
def zeroWindowCfg : BuildConfig :=
  { intro_image := "intro.png", outro_image := "outro.png",
    middle_images := ["m.png"], numCaptions := 1, script := [],
    title := [], useOverlayFrame := false }

/-- `TRANSITION_STYLES` of `faceless_video_service.py` (lines 29-36). -/
def FACELESS_TRANSITION_STYLES : List String :=
  ["fadeblack", "slideleft", "diagtl", "circlecrop", "radial", "smoothleft"]

/-- One Ken Burns segment spec of `_build_slideshow` (faceless_video_service.py
lines 192-228): zoom direction and `d = int(per_image * FPS)` frames. -/
structure SlideSeg where
  zoomIn : Bool
  frames : ℤ
deriving DecidableEq, Repr

/-- The segment loop of `_build_slideshow` (lines 192-230): the i-th valid
image zooms in for even `i` and out for odd `i`. -/
def slideshowSegments (n : ℕ) (per : ℚ) : List SlideSeg :=
  (List.range n).map fun i =>
    { zoomIn := decide (i % 2 = 0), frames := Rat.floor (per * 30) }

/-- The transition loop of `_build_slideshow` (lines 237-257): the j-th
merge (0-based; `i = j + 1` in the source) uses
`TRANSITION_STYLES[(i - 1) % len(TRANSITION_STYLES)]`. -/
def slideshowTransitions (n : ℕ) : List String :=
  (List.range (n - 1)).map fun j =>
    FACELESS_TRANSITION_STYLES.getD
      ((j + 1 - 1) % FACELESS_TRANSITION_STYLES.length) ""

/-! ## Theorems -/

theorem punct_not_space {c : Char} (h : isSentencePunct c = true) :
    isSpacePy c = false := by
  simp only [isSentencePunct, Bool.or_eq_true, beq_iff_eq] at h
  rcases h with (h | h) | h <;> subst h <;> rfl

theorem dropWhile_ws_append {w s : List Char} (hw : ∀ c ∈ w, isSpacePy c = true) :
    (w ++ s).dropWhile isSpacePy = s.dropWhile isSpacePy := by
  induction w with
  | nil => rfl
  | cons a w ih =>
      have ha : isSpacePy a = true := hw a (List.mem_cons_self a w)
      simp only [List.cons_append, List.dropWhile_cons, ha, if_true]
      exact ih fun c hc => hw c (List.mem_cons_of_mem a hc)

theorem pyStrip_ws_prefix {w s : List Char} (hw : ∀ c ∈ w, isSpacePy c = true) :
    pyStrip (w ++ s) = pyStrip s := by
  simp only [pyStrip, dropWhile_ws_append hw]

theorem pyStrip_all_ws {s : List Char} (hw : ∀ c ∈ s, isSpacePy c = true) :
    pyStrip s = [] := by
  have : pyStrip (s ++ []) = pyStrip [] := pyStrip_ws_prefix hw
  simpa using this

theorem dropWhile_append_singleton {c : Char} (hc : isSpacePy c = false) :
    ∀ s : List Char, ∃ t, (s ++ [c]).dropWhile isSpacePy = t ++ [c] := by
  intro s
  induction s with
  | nil => exact ⟨[], by simp [List.dropWhile_cons, hc]⟩
  | cons a s ih =>
      by_cases ha : isSpacePy a = true
      · obtain ⟨t, ht⟩ := ih
        exact ⟨t, by simp [List.dropWhile_cons, ha, ht]⟩
      · exact ⟨a :: s, by simp [List.dropWhile_cons, Bool.eq_false_iff.mpr ha]⟩

/-- Stripping a string that ends in a non-whitespace character never yields
the empty string. -/
theorem pyStrip_append_ne_nil {c : Char} (hc : isSpacePy c = false) (s : List Char) :
    pyStrip (s ++ [c]) ≠ [] := by
  obtain ⟨t, ht⟩ := dropWhile_append_singleton hc s
  simp only [pyStrip, ht, List.reverse_append, List.reverse_cons, List.reverse_nil,
    List.nil_append, List.singleton_append, List.dropWhile_cons, hc, if_false]
  simp

theorem head_dropWhile_not {p : Char → Bool} :
    ∀ {l : List Char} {c : Char} {r : List Char}, l.dropWhile p = c :: r → p c = false := by
  intro l
  induction l with
  | nil => intro c r h; simp [List.dropWhile] at h
  | cons a l ih =>
      intro c r h
      by_cases ha : p a = true
      · exact ih (by simpa [List.dropWhile_cons, ha] using h)
      · rw [List.dropWhile_cons, if_neg (by simp [ha])] at h
        cases h
        exact Bool.eq_false_iff.mpr ha

/-- The first character of a non-empty stripped string is not whitespace. -/
theorem pyStrip_head_not_space {y : List Char} {c : Char} {r : List Char}
    (h : pyStrip y = c :: r) : isSpacePy c = false := by
  have hdec : (y.dropWhile isSpacePy).reverse.takeWhile isSpacePy ++
      (y.dropWhile isSpacePy).reverse.dropWhile isSpacePy =
      (y.dropWhile isSpacePy).reverse :=
    List.takeWhile_append_dropWhile _ _
  have hy : y.dropWhile isSpacePy = pyStrip y ++
      ((y.dropWhile isSpacePy).reverse.takeWhile isSpacePy).reverse := by
    show _ = ((y.dropWhile isSpacePy).reverse.dropWhile isSpacePy).reverse ++
      ((y.dropWhile isSpacePy).reverse.takeWhile isSpacePy).reverse
    rw [← List.reverse_append, hdec, List.reverse_reverse]
  rw [h] at hy
  exact head_dropWhile_not (by simpa using hy)

/-- Trailing whitespace in the accumulator does not change the outcome of the
specification splitter. -/
theorem splitSpecAux_ws_acc :
    ∀ (t cur w : List Char), (∀ c ∈ w, isSpacePy c = true) →
      splitSpecAux (cur ++ w) t = splitSpecAux cur t := by
  intro t
  induction t with
  | nil =>
      intro cur w hw
      have h1 : pyStrip (w.reverse ++ cur.reverse) = pyStrip cur.reverse :=
        pyStrip_ws_prefix fun c hc => hw c (by simpa using hc)
      simp [splitSpecAux, h1]
  | cons c rest ih =>
      intro cur w hw
      by_cases hp : isSentencePunct c = true
      · have h1 : pyStrip (w.reverse ++ (cur.reverse ++ [c])) = pyStrip (cur.reverse ++ [c]) :=
          pyStrip_ws_prefix fun x hx => hw x (by simpa using hx)
        simp [splitSpecAux, hp, h1]
      · have hp' : isSentencePunct c = false := Bool.eq_false_iff.mpr hp
        have : (c :: (cur ++ w)) = (c :: cur) ++ w := rfl
        simp only [splitSpecAux, hp', Bool.false_eq_true, if_false, this]
        exact ih (c :: cur) w hw

/-- Joint induction: the translated Python splitter (worker form) agrees with
the specification splitter, both in normal scanning state and while the
regex's `\s*` is consuming post-punctuation whitespace. -/
theorem reSplit_agrees :
    ∀ t : List Char,
      (∀ cur, processPairs (reSplitAux false cur t) = splitSpecAux cur t) ∧
      (∀ w, (∀ c ∈ w, isSpacePy c = true) →
        processPairs (reSplitAux true [] t) = splitSpecAux w t) := by
  intro t
  induction t with
  | nil =>
      constructor
      · intro cur
        simp [reSplitAux, processPairs, splitSpecAux]
      · intro w hw
        have h1 : pyStrip w.reverse = [] :=
          pyStrip_all_ws fun c hc => hw c (by simpa using hc)
        have h2 : pyStrip ([] : List Char) = [] := rfl
        simp [reSplitAux, processPairs, splitSpecAux, h1, h2]
  | cons c rest ih =>
      constructor
      · intro cur
        by_cases hp : isSentencePunct c = true
        · have hc : isSpacePy c = false := punct_not_space hp
          have hne : pyStrip (cur.reverse ++ [c]) ≠ [] := pyStrip_append_ne_nil hc _
          simp only [reSplitAux, Bool.false_and, Bool.false_eq_true, if_false, hp, if_true,
            processPairs, splitSpecAux]
          rw [if_neg hne, if_neg hne]
          exact congrArg _ (ih.2 [] (by intro c hc; simp at hc))
        · have hp' : isSentencePunct c = false := Bool.eq_false_iff.mpr hp
          simp only [reSplitAux, Bool.false_and, Bool.false_eq_true, if_false, hp',
            splitSpecAux]
          exact ih.1 (c :: cur)
      · intro w hw
        by_cases hs : isSpacePy c = true
        · have hp' : isSentencePunct c = false := by
            cases h : isSentencePunct c with
            | false => rfl
            | true => rw [punct_not_space h] at hs; exact absurd hs (by simp)
          simp only [reSplitAux, Bool.true_and, hs, if_true, splitSpecAux, hp',
            Bool.false_eq_true, if_false]
          have := ih.2 (c :: w) (by
            intro x hx
            rcases List.mem_cons.mp hx with h | h
            · exact h ▸ hs
            · exact hw x h)
          exact this
        · have hs' : isSpacePy c = false := Bool.eq_false_iff.mpr hs
          by_cases hp : isSentencePunct c = true
          · have h1 : pyStrip (w.reverse ++ ([].reverse ++ [c])) = pyStrip ([].reverse ++ [c]) :=
              pyStrip_ws_prefix fun x hx => hw x (by simpa using hx)
            have hne : pyStrip (([] : List Char).reverse ++ [c]) ≠ [] :=
              pyStrip_append_ne_nil hs' _
            simp only [reSplitAux, Bool.true_and, hs', Bool.false_eq_true, if_false, hp,
              if_true, processPairs, splitSpecAux, List.reverse_nil, List.nil_append] at *
            rw [if_neg hne]
            rw [show w.reverse ++ [c] = w.reverse ++ ([] ++ [c]) by simp] at h1
            simp only [List.nil_append] at h1
            rw [h1, if_neg hne]
            exact congrArg _ (ih.2 [] (by intro x hx; simp at hx))
          · have hp' : isSentencePunct c = false := Bool.eq_false_iff.mpr hp
            simp only [reSplitAux, Bool.true_and, hs', Bool.false_eq_true, if_false, hp',
              splitSpecAux]
            have h2 : splitSpecAux ([c] ++ w) rest = splitSpecAux [c] rest :=
              splitSpecAux_ws_acc rest [c] w hw
            rw [show (c :: w) = [c] ++ w from rfl, h2]
            exact ih.1 [c]

/-- Every chunk emitted by the specification splitter is the (non-empty)
strip of some string. -/
theorem mem_splitSpecAux :
    ∀ (t cur : List Char) (x : List Char), x ∈ splitSpecAux cur t →
      ∃ y, x = pyStrip y ∧ pyStrip y ≠ [] := by
  intro t
  induction t with
  | nil =>
      intro cur x hx
      by_cases h : pyStrip cur.reverse = []
      · simp [splitSpecAux, h] at hx
      · simp only [splitSpecAux, h, if_false, List.mem_singleton] at hx
        exact ⟨cur.reverse, hx, h⟩
  | cons c rest ih =>
      intro cur x hx
      by_cases hp : isSentencePunct c = true
      · by_cases h : pyStrip (cur.reverse ++ [c]) = []
        · rw [splitSpecAux] at hx
          simp only [hp, if_true, h, if_true] at hx
          exact ih [] x hx
        · rw [splitSpecAux] at hx
          simp only [hp, if_true, h, if_false, List.mem_cons] at hx
          rcases hx with hx | hx
          · exact ⟨cur.reverse ++ [c], hx, h⟩
          · exact ih [] x hx
      · have hp' : isSentencePunct c = false := Bool.eq_false_iff.mpr hp
        rw [splitSpecAux] at hx
        simp only [hp', Bool.false_eq_true, if_false] at hx
        exact ih (c :: cur) x hx

theorem pyWordsAux_ne_nil {cur : List Char} (hc : cur ≠ []) :
    ∀ s : List Char, pyWordsAux cur s ≠ [] := by
  intro s
  induction s generalizing cur with
  | nil => simp [pyWordsAux, hc]
  | cons a s ih =>
      by_cases ha : isSpacePy a = true
      · simp [pyWordsAux, ha, hc]
      · have ha' : isSpacePy a = false := Bool.eq_false_iff.mpr ha
        simp only [pyWordsAux, ha', Bool.false_eq_true, if_false]
        exact ih (by simp)

/-- A non-empty stripped string contains at least one word. -/
theorem pyWords_pyStrip_ne_nil {y : List Char} (h : pyStrip y ≠ []) :
    pyWords (pyStrip y) ≠ [] := by
  cases hps : pyStrip y with
  | nil => exact absurd hps h
  | cons c r =>
      have hc : isSpacePy c = false := pyStrip_head_not_space hps
      show pyWordsAux [] (c :: r) ≠ []
      simp only [pyWordsAux, hc, Bool.false_eq_true, if_false]
      exact pyWordsAux_ne_nil (by simp) r

/-- Every chunk produced by `split_into_chunks` contains at least one word
(`str.split()` on a stripped non-empty string is non-empty). -/
theorem chunk_words_ne_nil {t x : List Char} (hx : x ∈ split_into_chunks t) :
    pyWords x ≠ [] := by
  rw [split_into_chunks, (reSplit_agrees t).1 []] at hx
  obtain ⟨y, rfl, hne⟩ := mem_splitSpecAux t [] x hx
  exact pyWords_pyStrip_ne_nil hne

/-- C4: `split_into_chunks` splits the script text on the terminal
punctuation characters `.`, `!` and `?`, returns the sentence chunks
stripped of surrounding whitespace in original order, keeps a trailing
unterminated fragment as its own final chunk (this behaviour is the
specification splitter `split_into_chunks_spec`, to which the translated
code is proved equal), and returns zero chunks for an empty or
whitespace-only script. -/
theorem c4_split_matches_spec :
    (∀ t : List Char, split_into_chunks t = split_into_chunks_spec t) ∧
    (∀ t : List Char, (∀ c ∈ t, isSpacePy c = true) → split_into_chunks t = []) := by
  constructor
  · intro t
    exact (reSplit_agrees t).1 []
  · intro t hws
    rw [split_into_chunks, (reSplit_agrees t).1 []]
    show splitSpecAux [] t = []
    induction t with
    | nil => simp [splitSpecAux, pyStrip]
    | cons c rest ih =>
        have hs : isSpacePy c = true := hws c (List.mem_cons_self c rest)
        have hp' : isSentencePunct c = false := by
          cases h : isSentencePunct c with
          | false => rfl
          | true => rw [punct_not_space h] at hs; exact absurd hs (by simp)
        rw [splitSpecAux]
        simp only [hp', Bool.false_eq_true, if_false]
        have h2 : splitSpecAux ([] ++ [c]) rest = splitSpecAux [] rest :=
          splitSpecAux_ws_acc rest [] [c] (by intro x hx; simp at hx; exact hx ▸ hs)
        simp only [List.nil_append] at h2
        rw [h2]
        exact ih fun x hx => hws x (List.mem_cons_of_mem c hx)

/-- Witness for C4 on concrete inputs: a script with two sentences and a
trailing fragment, and a whitespace-only script. -/
theorem c4_split_matches_spec_witness :
    split_into_chunks ("Hi there. Go! ok".data) =
      split_into_chunks_spec ("Hi there. Go! ok".data) ∧
    split_into_chunks ("  ".data) = [] :=
  ⟨c4_split_matches_spec.1 ("Hi there. Go! ok".data),
   c4_split_matches_spec.2 ("  ".data) (by decide)⟩

theorem cumulative_duration_closed (D : ℚ) (n : ℕ) :
    ∀ k : ℕ, cumulative_duration D n k =
      INTRO_DURATION + k * (per_image_duration D n - TRANSITION_DURATION) := by
  intro k
  induction k with
  | zero => simp [cumulative_duration]
  | succ k ih =>
      rw [cumulative_duration, ih]
      push_cast
      ring

/-- C1: for every voice duration `D` and `N ≥ 1` middle images the plan's
outro crossfade node is anchored at offset exactly `INTRO_DURATION + D`,
and with
`per_image_duration = (D + TRANSITION_DURATION)/N + TRANSITION_DURATION` the
cumulative displayed duration after the `N` middle crossfades equals
`INTRO_DURATION + D + TRANSITION_DURATION`, exactly one transition window
past the outro offset. -/
theorem c1_outro_anchor (D : ℚ) (N : ℕ) (hN : 1 ≤ N) :
    (∀ cfg : BuildConfig, outroXfadeNode cfg D =
      .xfade (pre_outro_label cfg) (.v (numInputs cfg - 1)) "fadeblack"
        TRANSITION_DURATION (INTRO_DURATION + D) .vFinal) ∧
    per_image_duration D N = (D + TRANSITION_DURATION) / N + TRANSITION_DURATION ∧
    cumulative_duration D N N = INTRO_DURATION + D + TRANSITION_DURATION ∧
    cumulative_duration D N N = outro_offset D + TRANSITION_DURATION := by
  have hpos : 0 < N := hN
  have hne : (N : ℚ) ≠ 0 := Nat.cast_ne_zero.mpr (by omega)
  refine ⟨?_, by rw [per_image_duration, if_pos hpos], ?_, ?_⟩
  · intro cfg
    rw [outroXfadeNode]
    simp [TRANSITION_STYLES, Nat.mod_one, outro_offset]
  · rw [cumulative_duration_closed, per_image_duration, if_pos hpos]
    field_simp
    ring
  · rw [cumulative_duration_closed, per_image_duration, if_pos hpos, outro_offset]
    field_simp
    ring

/-- Witness for C1 at the spec's scenario `D = 20`, `N = 4`:
`per_image_duration = 6.25`, the outro crossfade node is anchored at offset
`23`, and the cumulative duration lands at `24`. -/
theorem c1_outro_anchor_witness :
    outroXfadeNode sampleCfg 20 =
      .xfade (pre_outro_label sampleCfg) (.v (numInputs sampleCfg - 1)) "fadeblack"
        TRANSITION_DURATION 23 .vFinal ∧
    per_image_duration 20 4 = 25/4 ∧
    cumulative_duration 20 4 4 = 24 := by
  obtain ⟨h1, h2, h3, _⟩ := c1_outro_anchor 20 4 (by decide)
  refine ⟨?_, ?_, ?_⟩
  · rw [h1 sampleCfg]; norm_num [INTRO_DURATION]
  · rw [h2]; norm_num [TRANSITION_DURATION]
  · rw [h3]; norm_num [INTRO_DURATION, TRANSITION_DURATION]

theorem chunkWindowsFrom_length (total window : ℚ) :
    ∀ (l : List ℕ) (t : ℚ), (chunkWindowsFrom total window t l).length = l.length := by
  intro l
  induction l with
  | nil => intro t; rfl
  | cons w rest ih => intro t; simp [chunkWindowsFrom, ih]

theorem chunkWindowsFrom_get (total window : ℚ) :
    ∀ (l : List ℕ) (t : ℚ) (i : ℕ) (hi : i < l.length),
      (chunkWindowsFrom total window t l).get
          ⟨i, by rw [chunkWindowsFrom_length]; exact hi⟩ =
        (t + (((l.take i).sum : ℕ) / total) * window,
         t + (((l.take (i+1)).sum : ℕ) / total) * window) := by
  intro l
  induction l with
  | nil => intro t i hi; exact absurd hi (by simp)
  | cons w rest ih =>
      intro t i hi
      cases i with
      | zero =>
          simp [chunkWindowsFrom]
      | succ i =>
          have hi' : i < rest.length := by simpa using hi
          have := ih (t + (w / total) * window) i hi'
          simp only [chunkWindowsFrom, List.get_cons_succ, this, List.take_succ_cons,
            List.sum_cons]
          rw [Prod.mk.injEq]
          constructor
          · push_cast; ring
          · push_cast; ring

theorem chunkWindowsFrom_width_sum (total window : ℚ) :
    ∀ (l : List ℕ) (t : ℚ),
      ((chunkWindowsFrom total window t l).map fun p => p.2 - p.1).sum =
        ((l.sum : ℕ) / total) * window := by
  intro l
  induction l with
  | nil => intro t; simp [chunkWindowsFrom]
  | cons w rest ih =>
      intro t
      simp only [chunkWindowsFrom, List.map_cons, List.sum_cons, ih, List.sum_cons]
      push_cast
      ring

theorem sum_pos_of_all_pos {l : List ℕ} (hne : l ≠ []) (h1 : ∀ x ∈ l, 1 ≤ x) :
    1 ≤ l.sum := by
  obtain ⟨w, rest, rfl⟩ := List.exists_cons_of_ne_nil hne
  have := h1 w (List.mem_cons_self _ _)
  simp only [List.sum_cons]
  omega

theorem chunk_word_counts_eq (script : List Char) :
    chunk_word_counts (split_into_chunks script) =
      (split_into_chunks script).map fun c => (pyWords c).length := by
  unfold chunk_word_counts
  apply List.map_congr_left
  intro x hx
  have h := chunk_words_ne_nil hx
  have : 1 ≤ (pyWords x).length := by
    cases hp : pyWords x with
    | nil => exact absurd hp h
    | cons a l => simp
  omega

theorem chunk_word_counts_all_pos (chunks : List (List Char)) :
    ∀ w ∈ chunk_word_counts chunks, 1 ≤ w := by
  intro w hw
  simp only [chunk_word_counts, List.mem_map] at hw
  obtain ⟨c, _, rfl⟩ := hw
  omega

/-- C2: for every script with a non-empty chunk list and every caption
range `[a, b]` with `b > a`, the chunk windows are placed sequentially
starting at `a`, each chunk receives a slice of width
`(chunkWordCount / totalWordCount) * (b - a)`, consecutive windows meet
exactly (contiguous, non-overlapping) and the widths sum to `b - a`
(exactly, hence within `1e-3`). -/
theorem c2_chunk_windows_tile (script : List Char) (a b : ℚ)
    (hne : split_into_chunks script ≠ []) (hab : a < b) :
    (chunk_windows script a b).length = (split_into_chunks script).length ∧
    (∀ h0 : 0 < (chunk_windows script a b).length,
      ((chunk_windows script a b).get ⟨0, h0⟩).1 = a) ∧
    (∀ i, ∀ hi : i + 1 < (chunk_windows script a b).length,
      ((chunk_windows script a b).get ⟨i + 1, hi⟩).1 =
        ((chunk_windows script a b).get ⟨i, Nat.lt_of_succ_lt hi⟩).2) ∧
    (∀ i, ∀ hi : i < (chunk_windows script a b).length,
     ∀ hi' : i < (split_into_chunks script).length,
      ((chunk_windows script a b).get ⟨i, hi⟩).2 -
        ((chunk_windows script a b).get ⟨i, hi⟩).1 =
      (((pyWords ((split_into_chunks script).get ⟨i, hi'⟩)).length : ℚ) /
          ((((split_into_chunks script).map fun c => (pyWords c).length).sum : ℕ) : ℚ)) *
        (b - a)) ∧
    ((chunk_windows script a b).map fun p => p.2 - p.1).sum = b - a := by
  have hcw := chunk_word_counts_eq script
  have hwcs_ne : chunk_word_counts (split_into_chunks script) ≠ [] := by
    simp only [chunk_word_counts, ne_eq, List.map_eq_nil_iff]
    exact hne
  have hsum : 1 ≤ (chunk_word_counts (split_into_chunks script)).sum :=
    sum_pos_of_all_pos hwcs_ne (chunk_word_counts_all_pos _)
  have htot : (((chunk_word_counts (split_into_chunks script)).sum : ℕ) : ℚ) ≠ 0 :=
    Nat.cast_ne_zero.mpr (by omega)
  refine ⟨?_, ?_, ?_, ?_, ?_⟩
  · rw [chunk_windows, chunkWindowsFrom_length, chunk_word_counts, List.length_map]
  · intro h0
    simp only [chunk_windows] at h0 ⊢
    rw [chunkWindowsFrom_get _ _ _ _ 0 (by rwa [chunkWindowsFrom_length] at h0)]
    simp
  · intro i hi
    simp only [chunk_windows] at hi ⊢
    have hi1 : i + 1 < (chunk_word_counts (split_into_chunks script)).length := by
      rwa [chunkWindowsFrom_length] at hi
    rw [chunkWindowsFrom_get _ _ _ _ (i+1) hi1,
      chunkWindowsFrom_get _ _ _ _ i (Nat.lt_of_succ_lt hi1)]
  · intro i hi hi'
    simp only [chunk_windows] at hi ⊢
    have hilen : i < (chunk_word_counts (split_into_chunks script)).length := by
      rwa [chunkWindowsFrom_length] at hi
    rw [chunkWindowsFrom_get _ _ _ _ i hilen]
    have htake : ((chunk_word_counts (split_into_chunks script)).take (i+1)).sum =
        ((chunk_word_counts (split_into_chunks script)).take i).sum +
          (chunk_word_counts (split_into_chunks script)).get ⟨i, hilen⟩ :=
      List.sum_take_succ _ i hilen
    have hget : (chunk_word_counts (split_into_chunks script)).get ⟨i, hilen⟩ =
        (pyWords ((split_into_chunks script).get ⟨i, hi'⟩)).length := by
      rw [List.get_of_eq hcw]
      simp [List.get_map]
    have hsumeq : (((chunk_word_counts (split_into_chunks script)).sum : ℕ) : ℚ) =
        ((((split_into_chunks script).map fun c => (pyWords c).length).sum : ℕ) : ℚ) := by
      rw [hcw]
    simp only [htake, hget] at *
    rw [← hsumeq]
    push_cast
    ring
  · rw [chunk_windows, chunkWindowsFrom_width_sum, div_self htot, one_mul]

/-- Witness for C2 on the script `"Hi there. Go!"` with caption range
`[3, 23]`: the chunk window widths sum to exactly the range width. -/
theorem c2_chunk_windows_tile_witness :
    ((chunk_windows ("Hi there. Go!".data) 3 23).map fun p => p.2 - p.1).sum = 23 - 3 :=
  (c2_chunk_windows_tile ("Hi there. Go!".data) 3 23 (by decide) (by decide)).2.2.2.2

theorem char_weights_all_ge_two (words : List (List Char)) :
    ∀ w ∈ char_weights words, 2 ≤ w := by
  intro w hw
  simp only [char_weights, List.mem_map] at hw
  obtain ⟨x, _, rfl⟩ := hw
  omega

/-- C3: in typewriter mode, the per-word sub-windows of a chunk with at
least one word are computed from the character weights `max(len(word), 2)`;
they are strictly monotonically increasing, contiguous (each window's end is
the next window's start), and their union is exactly the chunk's window
`[chunk_start, chunk_start + chunk_dur]`. -/
theorem c3_typewriter_word_windows (words : List (List Char)) (cs dur : ℚ)
    (hw : words ≠ []) (hdur : 0 < dur) :
    (∀ i, i < words.length →
      (wordWindow cs dur (char_weights words) i).1 <
        (wordWindow cs dur (char_weights words) i).2) ∧
    (∀ i, (wordWindow cs dur (char_weights words) i).2 =
      (wordWindow cs dur (char_weights words) (i + 1)).1) ∧
    (wordWindow cs dur (char_weights words) 0).1 = cs ∧
    (wordWindow cs dur (char_weights words) (words.length - 1)).2 = cs + dur := by
  have hlen : (char_weights words).length = words.length := List.length_map _ _
  have hwne : char_weights words ≠ [] := by
    simp only [char_weights, ne_eq, List.map_eq_nil_iff]
    exact hw
  have hsum2 : 2 ≤ (char_weights words).sum := by
    obtain ⟨x, rest, hx⟩ := List.exists_cons_of_ne_nil hwne
    have h2 : 2 ≤ x := by
      have := char_weights_all_ge_two words x (by rw [hx]; exact List.mem_cons_self _ _)
      exact this
    rw [hx, List.sum_cons]
    omega
  have htotpos : (0 : ℚ) < (((char_weights words).sum : ℕ) : ℚ) := by
    exact_mod_cast Nat.lt_of_lt_of_le (by omega) hsum2
  refine ⟨?_, ?_, ?_, ?_⟩
  · intro i hi
    have hi' : i < (char_weights words).length := by rwa [hlen]
    have htake : ((char_weights words).take (i+1)).sum =
        ((char_weights words).take i).sum + (char_weights words).get ⟨i, hi'⟩ :=
      List.sum_take_succ _ i hi'
    have hwi : 2 ≤ (char_weights words).get ⟨i, hi'⟩ :=
      char_weights_all_ge_two words _ (List.get_mem _ _ _)
    simp only [wordWindow, word_t, htake]
    have hstep : (((((char_weights words).take i).sum : ℕ) : ℚ)) <
        ((((char_weights words).take i).sum + (char_weights words).get ⟨i, hi'⟩ : ℕ) : ℚ) := by
      exact_mod_cast Nat.lt_add_of_pos_right (by omega)
    have hmul := mul_lt_mul_of_pos_right
      ((div_lt_div_iff_of_pos_right htotpos).mpr hstep) hdur
    linarith [hmul]
  · intro i
    rfl
  · simp [wordWindow, word_t]
  · have hlw : (words.length - 1) + 1 = words.length := by
      cases hl0 : words.length with
      | zero => exact absurd (List.length_eq_zero.mp hl0) hw
      | succ n => omega
    have htakeall : (char_weights words).take ((words.length - 1) + 1) =
        char_weights words := by
      rw [hlw, ← hlen, List.take_length]
    simp only [wordWindow, word_t, htakeall]
    rw [div_self (ne_of_gt htotpos), one_mul]

/-- Witness for C3 on the two-word chunk `"hello world"` with window
`[0, 2]`: the first sub-window starts at the chunk start and the final
sub-window ends at the chunk end. -/
theorem c3_typewriter_word_windows_witness :
    (wordWindow 0 2 (char_weights (pyWords ("hello world".data))) 0).1 = 0 ∧
    (wordWindow 0 2 (char_weights (pyWords ("hello world".data)))
      ((pyWords ("hello world".data)).length - 1)).2 = 0 + 2 :=
  ⟨(c3_typewriter_word_windows (pyWords ("hello world".data)) 0 2
      (by decide) (by decide)).2.2.1,
   (c3_typewriter_word_windows (pyWords ("hello world".data)) 0 2
      (by decide) (by decide)).2.2.2⟩

theorem width_nonneg_helper (a b x g T : ℚ) (hg : 0 ≤ g) (hT : 0 ≤ T)
    (hba : 0 ≤ b - a) :
    0 ≤ a + (x + g) / T * (b - a) - (a + x / T * (b - a)) := by
  have h : a + (x + g) / T * (b - a) - (a + x / T * (b - a)) = g / T * (b - a) := by
    ring
  rw [h]
  exact mul_nonneg (div_nonneg hg hT) hba

/-- C10: every chunk weight in the caption-window computation is
`max(wordCount, 1)`, so for a non-empty chunk list the total weight is at
least 1 (the per-chunk fraction never divides by zero) and every chunk
window has non-negative width, even for a chunk whose text contains no
splittable words. -/
theorem c10_chunk_weight_safety (chunks : List (List Char)) (a b : ℚ)
    (hne : chunks ≠ []) (hab : a ≤ b) :
    (∀ c ∈ chunks, (chunk_word_counts [c]) = [max (pyWords c).length 1]) ∧
    1 ≤ (chunk_word_counts chunks).sum ∧
    (∀ i, ∀ hi : i <
        (chunkWindowsFrom (((chunk_word_counts chunks).sum : ℕ)) (b - a) a
          (chunk_word_counts chunks)).length,
      0 ≤ ((chunkWindowsFrom (((chunk_word_counts chunks).sum : ℕ)) (b - a) a
          (chunk_word_counts chunks)).get ⟨i, hi⟩).2 -
        ((chunkWindowsFrom (((chunk_word_counts chunks).sum : ℕ)) (b - a) a
          (chunk_word_counts chunks)).get ⟨i, hi⟩).1) := by
  have hwne : chunk_word_counts chunks ≠ [] := by
    simp only [chunk_word_counts, ne_eq, List.map_eq_nil_iff]
    exact hne
  have hsum : 1 ≤ (chunk_word_counts chunks).sum :=
    sum_pos_of_all_pos hwne (chunk_word_counts_all_pos _)
  refine ⟨fun c _ => rfl, hsum, ?_⟩
  intro i hi
  have hilen : i < (chunk_word_counts chunks).length := by
    rwa [chunkWindowsFrom_length] at hi
  rw [chunkWindowsFrom_get _ _ _ _ i hilen]
  have htake : ((chunk_word_counts chunks).take (i+1)).sum =
      ((chunk_word_counts chunks).take i).sum + (chunk_word_counts chunks).get ⟨i, hilen⟩ :=
    List.sum_take_succ _ i hilen
  simp only [htake]
  rw [Nat.cast_add]
  have hba : (0:ℚ) ≤ b - a := by linarith
  exact width_nonneg_helper a b
    ((((chunk_word_counts chunks).take i).sum : ℕ) : ℚ)
    (((chunk_word_counts chunks).get ⟨i, hilen⟩ : ℕ) : ℚ)
    (((chunk_word_counts chunks).sum : ℕ) : ℚ)
    (Nat.cast_nonneg _) (Nat.cast_nonneg _) hba

/-- Witness for C10 at a chunk list whose single chunk has no splittable
words (a blank chunk text): the total weight is still at least 1. -/
theorem c10_chunk_weight_safety_witness :
    1 ≤ (chunk_word_counts [(" ".data)]).sum :=
  (c10_chunk_weight_safety [(" ".data)] 0 5 (by decide) (by decide)).2.1

/-- C5: reel generation fails with the narration-too-short error exactly
when the measured voice duration is strictly below the 3-second minimum
(regardless of the image count, since the check precedes all timing math),
and a duration of exactly 3.0 seconds passes the check and reaches the
timing math. -/
theorem c5_narration_minimum (d : ℚ) (n : ℕ) :
    (generateChecks d n = .error .narrationTooShort ↔ d < 3) ∧
    (3 ≤ d → 1 ≤ n → generateChecks d n = .ok (d / n)) := by
  constructor
  · constructor
    · intro h
      by_contra hge
      rw [generateChecks, if_neg hge] at h
      by_cases hn : n = 0
      · rw [if_pos hn] at h
        exact ReelError.noConfusion (Except.error.inj h)
      · rw [if_neg hn] at h
        exact Except.noConfusion h
    · intro h
      rw [generateChecks, if_pos h]
  · intro h3 hn
    rw [generateChecks, if_neg (not_lt.mpr h3), if_neg (by omega)]

/-- Witness for C5 at the boundary: duration exactly 3 with two images
compiles to the per-image timing, while duration 2 fails with the
narration-too-short error. -/
theorem c5_narration_minimum_witness :
    generateChecks 3 2 = .ok (3 / 2) ∧
    generateChecks 2 2 = .error .narrationTooShort :=
  ⟨(c5_narration_minimum 3 2).2 (by decide) (by decide),
   (c5_narration_minimum 2 2).1.mpr (by decide)⟩

/-- C6 counterexample: with a single unreadable content path the slideshow
builder produces a black placeholder clip — a reel is still built, no
no-content-assets error is raised. -/
theorem c6_counterexample_placeholder :
    buildSlideshow [("missing.png", false)] 10 = .placeholderClip 10 ∧
    buildSlideshow [("missing.png", false)] 10 ≠ .noContentError := by
  exact ⟨rfl, by decide⟩

/-- C6 (amended): unreadable content paths are dropped before any duration
math runs, and if the surviving list is empty `_build_slideshow` substitutes
a black placeholder clip of the full duration (logged) rather than failing;
otherwise the per-image duration is `total_duration / n` over the `n`
surviving images.  Separately, the `reel_generator` pipeline raises its
no-middle-images error exactly when the configured list itself is empty,
without any readability filtering. -/
theorem c6_amended_content_fallback (images : List (String × Bool)) (td d : ℚ)
    (hd : 3 ≤ d) :
    ((images.filter fun p => p.2).length = 0 →
      buildSlideshow images td = .placeholderClip td) ∧
    (∀ n : ℕ, 0 < n → (images.filter fun p => p.2).length = n →
      buildSlideshow images td = .slideshow (td / n) n) ∧
    buildSlideshow images td ≠ .noContentError ∧
    (∀ n : ℕ, generateChecks d n = .error .noMiddleImages ↔ n = 0) := by
  refine ⟨?_, ?_, ?_, ?_⟩
  · intro h
    rw [buildSlideshow]
    simp only [h, if_true]
  · intro n hn hlen
    rw [buildSlideshow]
    simp only [hlen]
    rw [if_neg (by omega)]
  · rw [buildSlideshow]
    by_cases h : (images.filter fun p => p.2).length = 0
    · simp only [h, if_true]
      exact fun hc => SlideshowBuild.noConfusion hc
    · simp only [h, if_false]
      exact fun hc => SlideshowBuild.noConfusion hc
  · intro n
    constructor
    · intro h
      by_contra hn
      rw [generateChecks, if_neg (not_lt.mpr hd), if_neg hn] at h
      exact Except.noConfusion h
    · intro hn
      rw [generateChecks, if_neg (not_lt.mpr hd), if_pos hn]

/-- Witness for C6 (amended) at concrete inputs: an all-unreadable list
yields the placeholder, and an empty configured list fails the pipeline
check. -/
theorem c6_amended_content_fallback_witness :
    buildSlideshow [("a.png", false)] 10 = .placeholderClip 10 ∧
    generateChecks 3 0 = .error .noMiddleImages :=
  ⟨(c6_amended_content_fallback [("a.png", false)] 10 3 (by decide)).1 (by decide),
   ((c6_amended_content_fallback [("a.png", false)] 10 3 (by decide)).2.2.2 0).mpr rfl⟩

theorem typewriterNode_not_audio {chunks windows wordCounts capIdx0 i n}
    (h : typewriterNode chunks windows wordCounts capIdx0 i = some n) :
    isAudioNode n = false := by
  rw [typewriterNode] at h
  rcases hw : windows[((findChunkWord wordCounts i).getD (0, 0)).1]? with _ | w <;>
    rcases hc : chunks[((findChunkWord wordCounts i).getD (0, 0)).1]? with _ | chunk <;>
      rw [hw, hc] at h <;> simp only at h
  · exact Option.noConfusion h
  · exact Option.noConfusion h
  · exact Option.noConfusion h
  · cases h; rfl

theorem staticNode_not_audio {windows capIdx0 i n}
    (h : staticNode windows capIdx0 i = some n) :
    isAudioNode n = false := by
  rw [staticNode] at h
  rcases hw : windows[min i (windows.length - 1)]? with _ | w <;> rw [hw] at h <;>
    simp only at h
  · exact Option.noConfusion h
  · cases h; rfl

theorem chainNodes_all {P : FNode → Prop} {f : ℕ → Option FNode}
    (hf : ∀ k n, f k = some n → P n) :
    ∀ m l, chainNodes f m = some l → ∀ n ∈ l, P n := by
  intro m
  induction m with
  | zero =>
      intro l h n hn
      cases h
      simp at hn
  | succ m ih =>
      intro l h n hn
      rw [chainNodes] at h
      rcases hc : chainNodes f m with _ | l' <;> rw [hc] at h
      · exact Option.noConfusion h
      · rcases hfk : f m with _ | x <;> rw [hfk] at h
        · exact Option.noConfusion h
        · cases h
          rcases List.mem_append.mp hn with hn | hn
          · exact ih l' hc n hn
          · rw [List.mem_singleton.mp hn]
            exact hf m x hfk

theorem captionStage_not_audio {cfg : BuildConfig} {D : ℚ} {l : List FNode}
    (h : captionStage cfg D = some l) : ∀ n ∈ l, isAudioNode n = false := by
  rw [captionStage] at h
  by_cases hcond : cfg.numCaptions ≠ 0 ∧ INTRO_DURATION < outro_offset D
  · rw [if_pos hcond] at h
    simp only [] at h
    by_cases hty : (split_into_chunks cfg.script).length < cfg.numCaptions
    · rw [if_pos hty] at h
      rcases hch : chainNodes (typewriterNode (split_into_chunks cfg.script) _ _ _)
          cfg.numCaptions with _ | l' <;> rw [hch] at h
      · exact Option.noConfusion h
      · cases h
        intro n hn
        rcases List.mem_append.mp hn with hn | hn
        · exact chainNodes_all (fun k m hm => typewriterNode_not_audio hm) _ _ hch n hn
        · rw [List.mem_singleton.mp hn]; rfl
    · rw [if_neg hty] at h
      rcases hch : chainNodes (staticNode _ (numInputs cfg + 1)) cfg.numCaptions
          with _ | l' <;> rw [hch] at h
      · exact Option.noConfusion h
      · cases h
        intro n hn
        rcases List.mem_append.mp hn with hn | hn
        · exact chainNodes_all (fun k m hm => staticNode_not_audio hm) _ _ hch n hn
        · rw [List.mem_singleton.mp hn]; rfl
  · rw [if_neg hcond] at h
    cases h
    intro n hn
    rw [List.mem_singleton.mp hn]
    rfl

theorem inputScaleNodes_not_audio (cfg : BuildConfig) (D : ℚ) :
    ∀ n ∈ inputScaleNodes cfg D, isAudioNode n = false := by
  intro n hn
  simp only [inputScaleNodes, List.mem_map] at hn
  obtain ⟨i, _, rfl⟩ := hn
  by_cases h1 : inputPath cfg i = cfg.intro_image
  · simp [h1, isAudioNode]
  · by_cases h2 : inputPath cfg i = cfg.outro_image <;> simp [h1, h2, isAudioNode]

theorem middleXfadeNodes_not_audio (cfg : BuildConfig) (D : ℚ) :
    ∀ n ∈ middleXfadeNodes cfg D, isAudioNode n = false := by
  intro n hn
  simp only [middleXfadeNodes, List.mem_map] at hn
  obtain ⟨k, _, rfl⟩ := hn
  rfl

theorem titleNodes_not_audio (cfg : BuildConfig) (D : ℚ) :
    ∀ n ∈ titleNodes cfg D, isAudioNode n = false := by
  intro n hn
  rw [titleNodes] at hn
  by_cases ht : cfg.title = []
  · rw [if_pos ht] at hn; simp at hn
  · rw [if_neg ht] at hn
    rw [List.mem_singleton.mp hn]
    rfl

theorem frameNodes_not_audio (cfg : BuildConfig) :
    ∀ n ∈ frameNodes cfg, isAudioNode n = false := by
  intro n hn
  rw [frameNodes] at hn
  by_cases hf : cfg.useOverlayFrame = true
  · rw [if_pos hf] at hn
    rcases List.mem_cons.mp hn with rfl | hn
    · rfl
    · rcases List.mem_cons.mp hn with rfl | hn
      · rfl
      · simp at hn
  · rw [if_neg hf] at hn; simp at hn

/-- C7: the built plan contains exactly one audio processing chain for the
voice track — a trim to `[0, voice_duration]` followed by an
`adelay` of 3000 ms on both channels on audio input `len(inputs)` — and
3000 ms is exactly `INTRO_DURATION`, so narration begins exactly when the
intro ends. -/
theorem c7_single_audio_chain (cfg : BuildConfig) (D : ℚ) (p : List FNode)
    (hp : buildPlan cfg D = some p) :
    p.filter isAudioNode =
      [.audioTrimDelay (numInputs cfg) 0 D 3000 3000 .aDelayed] ∧
    ((3000 : ℚ) / 1000) = INTRO_DURATION := by
  rw [buildPlan] at hp
  obtain ⟨capNodes, hcap, rfl⟩ := Option.map_eq_some'.mp hp
  refine ⟨?_, by norm_num [INTRO_DURATION]⟩
  simp only [List.filter_append]
  rw [List.filter_eq_nil_iff.mpr (by
        intro a ha
        simp only [Bool.not_eq_true]
        exact inputScaleNodes_not_audio cfg D a ha),
     List.filter_eq_nil_iff.mpr (by
        intro a ha
        simp only [Bool.not_eq_true]
        exact middleXfadeNodes_not_audio cfg D a ha),
     List.filter_eq_nil_iff.mpr (by
        intro a ha
        rw [List.mem_singleton.mp ha]
        simp [isAudioNode]),
     List.filter_eq_nil_iff.mpr (by
        intro a ha
        simp only [Bool.not_eq_true]
        exact captionStage_not_audio hcap a ha),
     List.filter_eq_nil_iff.mpr (by
        intro a ha
        simp only [Bool.not_eq_true]
        exact titleNodes_not_audio cfg D a ha),
     List.filter_eq_nil_iff.mpr (by
        intro a ha
        simp only [Bool.not_eq_true]
        exact frameNodes_not_audio cfg a ha)]
  simp only [List.nil_append, List.append_nil]
  rfl

/-- Witness for C7: the concrete plan for `sampleCfg` with a 10-second
voice track has the single trim+delay audio node. -/
theorem c7_single_audio_chain_witness :
    ((buildPlan sampleCfg 10).getD []).filter isAudioNode =
      [.audioTrimDelay (numInputs sampleCfg) 0 10 3000 3000 .aDelayed] ∧
    ((3000 : ℚ) / 1000) = INTRO_DURATION :=
  c7_single_audio_chain sampleCfg 10 ((buildPlan sampleCfg 10).getD []) rfl

/-- C8 counterexample: for an input whose script yields zero caption
windows (empty script, hence zero chunks) but with a caption image present,
`build_video` does not degrade to a passthrough — the typewriter branch
indexes `chunk_windows[0]` on an empty list and raises, so no filter graph
(and no `v_captioned` label) is built at all. -/
theorem c8_counterexample_zero_window_crash :
    split_into_chunks zeroWindowCfg.script = [] ∧
    buildPlan zeroWindowCfg 10 = none := by
  constructor
  · rfl
  · have hlt : INTRO_DURATION < outro_offset 10 := by
      norm_num [INTRO_DURATION, outro_offset]
    have hcap : captionStage zeroWindowCfg 10 = none := by
      rw [captionStage, if_pos ⟨by decide, hlt⟩]
      rfl
    rw [buildPlan, hcap]
    rfl

/-- C8 (amended): whenever there are no caption images, or the caption
range is empty (`outro_offset ≤ INTRO_DURATION`), the built filter graph
defines the `v_captioned` label as a pure `null` passthrough of
`v_base_middle` — in particular in the pipeline's empty-script case, where
no caption PNGs are rendered.  When the script yields zero caption windows
but caption images are supplied, the build raises instead of producing a
passthrough. -/
theorem c8_amended_caption_passthrough (cfg : BuildConfig) (D : ℚ)
    (h : cfg.numCaptions = 0 ∨ outro_offset D ≤ INTRO_DURATION) :
    captionStage cfg D = some [.nullPass .vBaseMiddle .vCaptioned] ∧
    ∃ p, buildPlan cfg D = some p ∧ .nullPass .vBaseMiddle .vCaptioned ∈ p := by
  have hcond : ¬ (cfg.numCaptions ≠ 0 ∧ INTRO_DURATION < outro_offset D) := by
    rcases h with h | h
    · exact fun hc => hc.1 h
    · exact fun hc => absurd hc.2 (not_lt.mpr h)
  have hcap : captionStage cfg D = some [.nullPass .vBaseMiddle .vCaptioned] := by
    rw [captionStage, if_neg hcond]
  refine ⟨hcap, ?_⟩
  refine ⟨_, by rw [buildPlan, hcap]; rfl, ?_⟩
  simp

/-- Witness for C8 (amended): the concrete passthrough node in the plan of
a captionless configuration. -/
theorem c8_amended_caption_passthrough_witness :
    captionStage sampleCfg 10 = some [.nullPass .vBaseMiddle .vCaptioned] ∧
    ∃ p, buildPlan sampleCfg 10 = some p ∧
      FNode.nullPass .vBaseMiddle .vCaptioned ∈ p :=
  c8_amended_caption_passthrough sampleCfg 10 (Or.inl rfl)

/-- C9: plan construction is deterministic — two runs of `build_video` on
identical config and voice duration produce the identical filter graph —
and the visual variety is purely index-driven: the k-th middle image (its
path distinct from the intro/outro paths, as in every pipeline config) gets
the zoom-in transform exactly when `k` is even, the k-th middle crossfade
style is `TRANSITION_STYLES[k % len]` (always `"fadeblack"`), and in the
faceless slideshow the i-th segment zooms in exactly for even `i` while the
j-th merge cycles `TRANSITION_STYLES[j % 6]`.  No randomness occurs
anywhere in the construction. -/
theorem c9_deterministic_index_driven :
    (∀ (cfg cfg' : BuildConfig) (D D' : ℚ), cfg = cfg' → D = D' →
      buildPlan cfg D = buildPlan cfg' D') ∧
    (∀ (cfg : BuildConfig) (D : ℚ) (k : ℕ), k < cfg.middle_images.length →
      cfg.middle_images.getD k "" ≠ cfg.intro_image →
      cfg.middle_images.getD k "" ≠ cfg.outro_image →
      (inputScaleNodes cfg D)[k + 1]? =
        some (.scaleZoom (k + 1) (decide (k % 2 = 0))
          (Rat.floor (per_image_duration D cfg.middle_images.length * 30))
          (.v (k + 1)))) ∧
    (∀ (cfg : BuildConfig) (D : ℚ) (k : ℕ), k < cfg.middle_images.length →
      (middleXfadeNodes cfg D)[k]? =
        some (.xfade (if k = 0 then .v 0 else .vJoin k) (.v (k + 1)) "fadeblack"
          TRANSITION_DURATION
          (cumulative_duration D cfg.middle_images.length k - TRANSITION_DURATION)
          (.vJoin (k + 1)))) ∧
    (∀ (n : ℕ) (per : ℚ) (i : ℕ), i < n →
      (slideshowSegments n per)[i]? =
        some { zoomIn := decide (i % 2 = 0), frames := Rat.floor (per * 30) }) ∧
    (∀ (n j : ℕ), j < n - 1 →
      (slideshowTransitions n)[j]? =
        some (FACELESS_TRANSITION_STYLES.getD (j % 6) "")) := by
  refine ⟨?_, ?_, ?_, ?_, ?_⟩
  · intro cfg cfg' D D' hc hD
    subst hc
    subst hD
    rfl
  · intro cfg D k hk h1 h2
    have hk2 : k + 1 < numInputs cfg := by
      rw [numInputs]; omega
    rw [inputScaleNodes, List.getElem?_map, List.getElem?_range hk2]
    have hpath : inputPath cfg (k + 1) = cfg.middle_images.getD k "" := by
      rw [inputPath, List.getD_cons_succ, List.getD_append _ _ _ _ hk]
    simp only [Option.map_some']
    rw [if_neg (by rw [hpath]; exact h1), if_neg (by rw [hpath]; exact h2)]
    simp
  · intro cfg D k hk
    rw [middleXfadeNodes, List.getElem?_map, List.getElem?_range hk]
    have hsty : TRANSITION_STYLES.getD (k % TRANSITION_STYLES.length) "" =
        "fadeblack" := by
      simp [TRANSITION_STYLES, Nat.mod_one]
    rw [Option.map_some', hsty]
  · intro n per i hi
    rw [slideshowSegments, List.getElem?_map, List.getElem?_range hi, Option.map_some']
  · intro n j hj
    rw [slideshowTransitions, List.getElem?_map, List.getElem?_range hj, Option.map_some']
    simp [FACELESS_TRANSITION_STYLES]

/-- Witness for C9 at concrete inputs: in `sampleCfg` the single middle
image (index 0, even) zooms in; in a 3-image faceless slideshow segment 1
zooms out and merge 1 uses the second curated style. -/
theorem c9_deterministic_index_driven_witness :
    (inputScaleNodes sampleCfg 10)[1]? =
      some (.scaleZoom 1 true (Rat.floor (per_image_duration 10 1 * 30)) (.v 1)) ∧
    (slideshowSegments 3 4)[1]? =
      some { zoomIn := false, frames := Rat.floor ((4 : ℚ) * 30) } ∧
    (slideshowTransitions 3)[1]? = some "slideleft" :=
  ⟨c9_deterministic_index_driven.2.1 sampleCfg 10 0 (by decide) (by decide) (by decide),
   c9_deterministic_index_driven.2.2.2.1 3 4 1 (by decide),
   c9_deterministic_index_driven.2.2.2.2 3 1 (by decide)⟩

end Reels
